import Mathlib

/-!
# Verification of the Burnet feed-forward network trainer

Shallow embedding of the training-loop orchestration (`Network.hh`), the
layer dropout path (`Layer.hh`), and the cost functions (`cost.hh`).

Modelling conventions:
* C++ `double` arithmetic in the partitioning code is modelled over `ℚ`;
  every numeral appearing in the concrete theorems below (1/4, 1/2, ...) is
  exactly representable as an IEEE double, so the `ℚ` computations coincide
  with the `double` ones there.
* An IEEE NaN loss value is modelled as `none : Option ℚ`; every C++
  comparison involving a NaN is false, which `improves` reproduces.
* The IEEE special values produced by `binaryCrossEntropyLoss` are
  modelled by the carrier `DVal` (finite / +inf / -inf / NaN) with the
  special-value propagation rules of IEEE-754 arithmetic; finite rounding
  is idealised as exact.
* Transcendental functions (`std::exp`, `std::log`) are taken as explicit
  function parameters; theorems instantiate them with `Real.exp` and
  `Real.log`.  Matrix code is therefore polymorphic over a `Field`.
* `std::mt19937` and `std::shuffle` are external library code; they are
  modelled as a deterministic seed-indexed stream and a Fisher-Yates pass
  driven by it, which is the only property (determinism given the seed)
  the claims rely on.
-/

namespace Burnet

/-! ## Dataset partitioning (`Network::shuffleData`, Network.hh lines 309-346) -/

/-- Model of `std::trunc`: round toward zero. -/
def qtrunc (x : ℚ) : ℤ := if 0 ≤ x then ⌊x⌋ else -⌊-x⌋

/-- Model of `std::round`: round half away from zero. -/
def qround (x : ℚ) : ℤ := if 0 ≤ x then ⌊x + 1/2⌋ else -⌊-x + 1/2⌋

/-- Value `std::trunc(_rawData.size() - validation - test) / _batchSize`
(a `double` in the source, line 315). -/
def nbBatchReal (N bs : ℕ) (v t : ℚ) : ℚ :=
  (qtrunc ((N : ℚ) - v * N - t * N) : ℚ) / (bs : ℚ)

/-- Batch count: one more batch is added when the fractional part of
`nbBatchReal` is at least one half (`Network::shuffleData`, lines 315-319). -/
def nbBatchOf (N bs : ℕ) (v t : ℚ) : ℕ :=
  let q := nbBatchReal N bs v t
  if q - ((qtrunc q : ℤ) : ℚ) ≥ 1/2 then (qtrunc q).toNat + 1 else (qtrunc q).toNat

/-- Value `nbTrain = static_cast<unsigned>(nbBatch) * _batchSize` (line 321). -/
def nbTrainOf (N bs : ℕ) (v t : ℚ) : ℕ := nbBatchOf N bs v t * bs

/-- Value `noTrain = _rawData.size() - nbTrain` in 32-bit `unsigned`
arithmetic (line 322). -/
def noTrainOf (N bs : ℕ) (v t : ℚ) : ℕ :=
  (((N : ℤ) - (nbTrainOf N bs v t : ℤ)) % (2 ^ 32 : ℤ)).toNat

/-- Value `validation = std::round(noTrain*_validationRatio/(_validationRatio
+ _testRatio))` cast to `unsigned` (lines 323, 326): the number of rows
popped into the validation set. -/
def validCountOf (N bs : ℕ) (v t : ℚ) : ℕ :=
  (qround ((noTrainOf N bs v t : ℚ) * v / (v + t))).toNat

/-- Value `test = std::round(noTrain*_testRatio/(_validationRatio +
_testRatio))` cast to `unsigned` (lines 324, 332): the number of rows
popped into the test set. -/
def testCountOf (N bs : ℕ) (v t : ℚ) : ℕ :=
  (qround ((noTrainOf N bs v t : ℚ) * t / (v + t))).toNat

/-- Training-set size: after the validation and test rows are popped off
the shuffled data, every remaining row goes to the training set
(lines 338-344). -/
def trainCountOf (N bs : ℕ) (v t : ℚ) : ℕ :=
  N - validCountOf N bs v t - testCountOf N bs v t

/-- The three partition sizes produced by `Network::shuffleData`:
(train, validation, test). -/
def shuffleSizes (N bs : ℕ) (v t : ℚ) : ℕ × ℕ × ℕ :=
  (trainCountOf N bs v t, validCountOf N bs v t, testCountOf N bs v t)

/-! ## The epoch loop of `Network::learn` (Network.hh lines 194-219) -/

/-- Comparison `validLoss < lowestLoss * _plateau` (line 208); `none`
models an IEEE NaN, and every comparison involving NaN is false. -/
def improves (validLoss lowest : Option ℚ) (plateau : ℚ) : Bool :=
  match validLoss, lowest with
  | some v, some l => decide (v < l * plateau)
  | _, _ => false

/-- What `computeLoss` records and what `learn` decides at one epoch. -/
structure EpochRecord where
  epoch : ℕ
  lowestBefore : Option ℚ
  trainLoss : Option ℚ
  validLoss : Option ℚ
  didSave : Bool
  optimalAfter : ℕ
deriving DecidableEq

/-- How the epoch loop of `learn` ended. -/
inductive LearnOutcome
  | diverged (epoch : ℕ)
  | earlyStopped (epoch : ℕ)
  | completed
deriving DecidableEq

/-- Observable result of `learn`: the returned Boolean, how the loop
ended, `_optimalEpoch`, the weight state the layers hold on exit, whether
`loadSaved()` ran, and the per-epoch trace. -/
structure LearnResult (W : Type) where
  success : Bool
  outcome : LearnOutcome
  optimalEpoch : ℕ
  finalWeights : W
  restoredCheckpoint : Bool
  trace : List EpochRecord
deriving DecidableEq

/-- One run of the epoch loop of `Network::learn` (lines 196-219), with
`fuel = _maxEpoch - _epoch` iterations left.  `tl e` / `vl e` are the
training/validation losses `computeLoss` records at epoch `e` (`none` =
NaN), `w e` the weight state after `performeOneEpoch` has run for epoch
`e`, `lowest`/`opt`/`savedW` the running `lowestLoss`, `_optimalEpoch` and
checkpoint, `tr` the (reversed) trace so far.  On a NaN the function
returns `false` at once without `loadSaved()`; on a `break` or on loop
exhaustion `loadSaved()` installs the checkpoint and `true` is returned. -/
def learnLoop {W : Type} (plateau : ℚ) (patience : ℕ) (tl vl : ℕ → Option ℚ)
    (w : ℕ → W) :
    ℕ → ℕ → Option ℚ → ℕ → W → List EpochRecord → LearnResult W
  | 0, _epoch, _lowest, opt, savedW, tr =>
      { success := true, outcome := .completed, optimalEpoch := opt,
        finalWeights := savedW, restoredCheckpoint := true, trace := tr.reverse }
  | fuel + 1, epoch, lowest, opt, savedW, tr =>
      match tl epoch, vl epoch with
      | some t, some v =>
        let impr := improves (some v) lowest plateau
        let opt' := if impr then epoch else opt
        let savedW' := if impr then w epoch else savedW
        let lowest' := if impr then some v else lowest
        let r : EpochRecord := ⟨epoch, lowest, some t, some v, impr, opt'⟩
        if epoch - opt' > patience then
          { success := true, outcome := .earlyStopped epoch, optimalEpoch := opt',
            finalWeights := savedW', restoredCheckpoint := true,
            trace := (r :: tr).reverse }
        else
          learnLoop plateau patience tl vl w fuel (epoch + 1) lowest' opt' savedW' (r :: tr)
      | _, _ =>
        { success := false, outcome := .diverged epoch, optimalEpoch := opt,
          finalWeights := w epoch, restoredCheckpoint := false,
          trace := (⟨epoch, lowest, tl epoch, vl epoch, false, opt⟩ :: tr).reverse }

/-- Full run of `learn`'s epoch loop: `_epoch` starts at 1 and runs while
`_epoch < _maxEpoch`; the baseline `lowestLoss = computeLoss()` is the
epoch-0 validation loss; `_optimalEpoch` starts at 0 and the neurons'
initial checkpoint content is `saved0`. -/
def learnRun {W : Type} (plateau : ℚ) (patience maxEpoch : ℕ) (tl vl : ℕ → Option ℚ)
    (w : ℕ → W) (saved0 : W) : LearnResult W :=
  learnLoop plateau patience tl vl w (maxEpoch - 1) 1 (vl 0) 0 saved0 []

/-- Invariant of each recorded epoch: saving happened exactly when the
losses were not NaN and the improvement comparison succeeded, and a save
makes the epoch optimal; the recorded losses are those of `tl`/`vl`. -/
def traceOK (plateau : ℚ) (tl vl : ℕ → Option ℚ) (r : EpochRecord) : Prop :=
  r.didSave = ((tl r.epoch).isSome && improves (vl r.epoch) r.lowestBefore plateau) ∧
  (r.didSave = true → r.optimalAfter = r.epoch) ∧
  r.trainLoss = tl r.epoch ∧ r.validLoss = vl r.epoch

/-- Exit-state contract of the epoch loop: failure happens exactly on a
divergence, `loadSaved()` runs exactly on success, a divergence at epoch
`e` is a NaN loss at `e` and leaves the layers holding `w e`, and success
leaves the layers holding the checkpointed weights. -/
def exitOK {W : Type} (tl vl : ℕ → Option ℚ) (w : ℕ → W) (saved0 : W) (lo hi : ℕ)
    (res : LearnResult W) : Prop :=
  (res.success = false ↔ ∃ e, res.outcome = .diverged e) ∧
  res.restoredCheckpoint = res.success ∧
  (∀ e, res.outcome = .diverged e →
    lo ≤ e ∧ e < hi ∧ (tl e = none ∨ vl e = none) ∧ res.finalWeights = w e) ∧
  (res.success = true →
    (res.optimalEpoch = 0 → res.finalWeights = saved0) ∧
    (1 ≤ res.optimalEpoch → res.finalWeights = w res.optimalEpoch))

/-! ## Regularization term of `Network::computeLoss` (Network.hh lines 400-472) -/

/-- Per-neuron weight state as returned by `getWeights()`: first the
weight matrix (one row per weight set), second the biases. -/
abbrev NeuronW := List (List ℚ) × List ℚ

/-- All layers' weights: for each layer, for each neuron, its weights. -/
abbrev NetWeights := List (List NeuronW)

/-- The four nested loops of `computeLoss` accumulating
`L1 += std::abs(weights[i][j].first[k][l])` (lines 413-430). -/
def l1Acc (ws : NetWeights) : ℚ :=
  ws.foldl (fun acc layer =>
    layer.foldl (fun acc n =>
      n.1.foldl (fun acc row =>
        row.foldl (fun acc x => acc + |x|) acc) acc) acc) 0

/-- The same loops accumulating `L2 += std::pow(weights[i][j].first[k][l], 2)`. -/
def l2Acc (ws : NetWeights) : ℚ :=
  ws.foldl (fun acc layer =>
    layer.foldl (fun acc n =>
      n.1.foldl (fun acc row =>
        row.foldl (fun acc x => acc + x ^ 2) acc) acc) acc) 0

/-- Losses recorded by `computeLoss`: both the training and the validation
loss are the average raw loss plus `L1 * _L1` plus `L2 * (_L2 * 0.5)`
(lines 432-448); `trainAvg`/`validAvg` stand for the two `averageLoss`
results. -/
def computeLossPair (l1c l2c : ℚ) (ws : NetWeights) (trainAvg validAvg : ℚ) : ℚ × ℚ :=
  let l1 := l1Acc ws * l1c
  let l2 := l2Acc ws * (l2c * (1/2))
  (trainAvg + l1 + l2, validAvg + l1 + l2)

/-- Closed form of the accumulated absolute-weight sum. -/
def sumAbs (ws : NetWeights) : ℚ :=
  (ws.map (fun layer =>
    (layer.map (fun n =>
      (n.1.map (fun row => (row.map (fun x => |x|)).sum)).sum)).sum)).sum

/-- Closed form of the accumulated squared-weight sum. -/
def sumSq (ws : NetWeights) : ℚ :=
  (ws.map (fun layer =>
    (layer.map (fun n =>
      (n.1.map (fun row => (row.map (fun x => x ^ 2)).sum)).sum)).sum)).sum

/-! ## Dropout in `Layer::performProcessToLearn` (Layer.hh lines 233-252) -/

/-- Constant `std::numeric_limits<double>::epsilon()`. -/
def machineEps : ℚ := 1 / 2 ^ 52

/-- Dropout post-processing of one neuron's output column inside
`Layer::performProcessToLearn`: `result` is the neuron's `processToLearn`
output over the batch and `draws j` the Bernoulli draw
`dropoutDist(dropGen)` made inside the loop body for sample `j`; the draw
sits inside the per-sample loop, so one draw is consumed per (sample,
neuron) pair. -/
def dropoutColumn (result : List ℚ) (dropout : ℚ) (draws : ℕ → Bool) : List ℚ :=
  (List.range result.length).map fun j =>
    if dropout > machineEps then
      (if draws j then 0 else result.getD j 0 / (1 - dropout))
    else result.getD j 0

/-! ## Seeding and partitioning determinism (Network.hh lines 96-99, 309-311) -/

/-- Seed selection in the `Network` constructor (line 97): a configured
seed of 0 is replaced by the current clock tick. -/
def effectiveSeed (paramSeed clock : ℕ) : ℕ := if paramSeed = 0 then clock else paramSeed

/-- Modelled from the spec: `std::mt19937` is external library code; the
spec only needs that the generator is a deterministic stream fixed by its
seed, which this linear-congruential stand-in provides. -/
def mtNext (s : ℕ) : ℕ := (6364136223846793005 * s + 1442695040888963407) % 2 ^ 64

/-- Modelled from the spec: the generator's k-th output given its seed. -/
def mtStream (seed : ℕ) : ℕ → ℕ
  | 0 => mtNext seed
  | n + 1 => mtNext (mtStream seed n)

/-- Swap of two list positions, used by the Fisher-Yates pass. -/
def swapL {α : Type} [Inhabited α] (l : List α) (i j : ℕ) : List α :=
  (l.set i (l.getD j default)).set j (l.getD i default)

/-- Modelled from the spec: `std::shuffle(_rawData.begin(), _rawData.end(),
_generator)` as a Fisher-Yates pass from the last element down, drawing
from the seed-determined stream. -/
def stdShuffle {α : Type} [Inhabited α] (seed : ℕ) (l : List α) : List α :=
  (List.range (l.length - 1)).foldl
    (fun acc k =>
      let i := l.length - 1 - k
      swapL acc i (mtStream seed k % (i + 1)))
    l

/-- Partition contents produced by `shuffleData`: shuffle, then pop
`validCountOf` rows off the back into the validation set, then
`testCountOf` rows into the test set, then every remaining row (in pop
order) into the training set; returns (train, validation, test). -/
def shuffledPartition {α : Type} [Inhabited α] (paramSeed clock bs : ℕ) (v t : ℚ)
    (data : List α) : List α × List α × List α :=
  let sh := stdShuffle (effectiveSeed paramSeed clock) data
  let N := data.length
  let vC := validCountOf N bs v t
  let tC := testCountOf N bs v t
  let rev := sh.reverse
  (rev.drop (vC + tC), rev.take vC, (rev.drop vC).take tC)

/-- Modelled from the spec: `Neuron::init` (its source is not under
`src/`) draws each initial weight from the seeded generator using the
configured distribution; only the seed-dependence matters here. -/
def initialWeights (paramSeed clock nW : ℕ) : List ℕ :=
  (List.range nW).map (mtStream (effectiveSeed paramSeed clock))

/-! ## Forward inference (`Network::process`, Network.hh lines 223-235) -/

/-- The `Loss` enumeration of Network.hh line 15. -/
inductive Loss
  | L1 | L2 | CrossEntropy | BinaryCrossEntropy
deriving DecidableEq

variable {K : Type} [Field K]

/-- Modelled from the spec: `softmax` (its source file is not under
`src/`) maps each row `x` to `exp(x_j) / sum_k exp(x_k)`; `e` stands for
`std::exp`. -/
def softmax (e : K → K) (m : List (List K)) : List (List K) :=
  m.map fun row => row.map fun x => e x / (row.map e).sum

/-- The layer loop of `Network::process` (lines 225-228): each layer's
pure forward pass applied in order. -/
def forwardPass (layers : List (List (List K) → List (List K)))
    (inputs : List (List K)) : List (List K) :=
  layers.foldl (fun acc f => f acc) inputs

/-- `Network::process`: forward passes, then softmax exactly when
`_loss == Loss::CrossEntropy` (lines 230-233). -/
def process (layers : List (List (List K) → List (List K))) (loss : Loss)
    (e : K → K) (inputs : List (List K)) : List (List K) :=
  let out := forwardPass layers inputs
  if loss = Loss.CrossEntropy then softmax e out else out

/-! ## Cross-entropy loss (`crossEntropyLoss`, cost.hh lines 60-74) -/

/-- `crossEntropyLoss`: over the softmax of `predicted`, elementwise loss
`real * -log(softMax)` and gradient `real - softMax`; `e`/`lg` stand for
`std::exp`/`std::log`. -/
def crossEntropyLoss (e lg : K → K) (real predicted : List (List K)) :
    List (List K) × List (List K) :=
  let sm := softmax e predicted
  ((List.range real.length).map fun i =>
     (List.range (real.headD []).length).map fun j =>
       ((real.getD i []).getD j 0) * -(lg ((sm.getD i []).getD j 0)),
   (List.range real.length).map fun i =>
     (List.range (real.headD []).length).map fun j =>
       ((real.getD i []).getD j 0) - ((sm.getD i []).getD j 0))

/-! ## Binary cross-entropy (`binaryCrossEntropyLoss`, cost.hh lines 80-93) -/

/-- Carrier for IEEE-754 double results: a finite value, an infinity, or
NaN; finite arithmetic is idealised as exact. -/
inductive DVal
  | fin (x : ℚ)
  | posInf
  | negInf
  | nan
deriving DecidableEq

/-- Finiteness test of a `DVal`. -/
def DVal.isFin : DVal → Bool
  | .fin _ => true
  | _ => false

/-- IEEE addition on `DVal`. -/
def dAdd : DVal → DVal → DVal
  | .nan, _ => .nan
  | _, .nan => .nan
  | .fin a, .fin b => .fin (a + b)
  | .fin _, .posInf => .posInf
  | .fin _, .negInf => .negInf
  | .posInf, .fin _ => .posInf
  | .negInf, .fin _ => .negInf
  | .posInf, .posInf => .posInf
  | .negInf, .negInf => .negInf
  | .posInf, .negInf => .nan
  | .negInf, .posInf => .nan

/-- IEEE negation on `DVal`. -/
def dNeg : DVal → DVal
  | .fin a => .fin (-a)
  | .posInf => .negInf
  | .negInf => .posInf
  | .nan => .nan

/-- IEEE multiplication on `DVal`: `0 * inf = NaN`. -/
def dMul : DVal → DVal → DVal
  | .nan, _ => .nan
  | _, .nan => .nan
  | .fin a, .fin b => .fin (a * b)
  | .fin a, .posInf => if a = 0 then .nan else if 0 < a then .posInf else .negInf
  | .fin a, .negInf => if a = 0 then .nan else if 0 < a then .negInf else .posInf
  | .posInf, .fin b => if b = 0 then .nan else if 0 < b then .posInf else .negInf
  | .negInf, .fin b => if b = 0 then .nan else if 0 < b then .negInf else .posInf
  | .posInf, .posInf => .posInf
  | .posInf, .negInf => .negInf
  | .negInf, .posInf => .negInf
  | .negInf, .negInf => .posInf

/-- IEEE division on `DVal`: `x/0` is an infinity for `x ≠ 0` and NaN for
`0/0` (the model's single zero behaves as `+0`). -/
def dDiv : DVal → DVal → DVal
  | .nan, _ => .nan
  | _, .nan => .nan
  | .fin a, .fin b =>
      if b = 0 then (if a = 0 then .nan else if 0 < a then .posInf else .negInf)
      else .fin (a / b)
  | .posInf, .fin b => if b < 0 then .negInf else .posInf
  | .negInf, .fin b => if b < 0 then .posInf else .negInf
  | .fin _, .posInf => .fin 0
  | .fin _, .negInf => .fin 0
  | .posInf, .posInf => .nan
  | .posInf, .negInf => .nan
  | .negInf, .posInf => .nan
  | .negInf, .negInf => .nan

/-- Model of `std::log` on doubles: `log 0 = -inf`, `log x = NaN` for
`x < 0`; `lg` supplies the finite values. -/
def dLog (lg : ℚ → ℚ) : DVal → DVal
  | .fin a => if a = 0 then .negInf else if a < 0 then .nan else .fin (lg a)
  | .posInf => .posInf
  | .negInf => .nan
  | .nan => .nan

/-- One element of `binaryCrossEntropyLoss` (cost.hh lines 88-89):
loss `-(r*log(p) + (1-r)*log(1-p))` and gradient `(r-p)/(p*(1-p))`. -/
def bceElem (lg : ℚ → ℚ) (r p : ℚ) : DVal × DVal :=
  (dNeg (dAdd (dMul (.fin r) (dLog lg (.fin p)))
              (dMul (.fin (1 - r)) (dLog lg (.fin (1 - p))))),
   dDiv (.fin (r - p)) (.fin (p * (1 - p))))

/-- `binaryCrossEntropyLoss`: elementwise loss and gradient matrices of
the shape of `real`. -/
def binaryCrossEntropyLoss (lg : ℚ → ℚ) (real predicted : List (List ℚ)) :
    List (List DVal) × List (List DVal) :=
  ((List.range real.length).map fun i =>
     (List.range (real.headD []).length).map fun j =>
       (bceElem lg ((real.getD i []).getD j 0) ((predicted.getD i []).getD j 0)).1,
   (List.range real.length).map fun i =>
     (List.range (real.headD []).length).map fun j =>
       (bceElem lg ((real.getD i []).getD j 0) ((predicted.getD i []).getD j 0)).2)

/-! ## Helper lemmas -/

lemma qround_le (x : ℚ) (hx : 0 ≤ x) : ((qround x).toNat : ℚ) ≤ x + 1/2 := by
  have h0 : qround x = ⌊x + 1/2⌋ := by simp [qround, hx]
  have hnn : 0 ≤ ⌊x + 1/2⌋ := Int.floor_nonneg.mpr (by linarith)
  rw [h0]
  have : ((⌊x + 1/2⌋.toNat : ℤ) : ℚ) = ((⌊x + 1/2⌋ : ℤ) : ℚ) := by
    exact_mod_cast congrArg (fun z : ℤ => (z : ℚ)) (Int.toNat_of_nonneg hnn)
  push_cast at this ⊢
  rw [this]
  exact Int.floor_le _

lemma learnLoop_trace {W : Type} (plateau : ℚ) (patience : ℕ) (tl vl : ℕ → Option ℚ)
    (w : ℕ → W) :
    ∀ (fuel epoch : ℕ) (lowest : Option ℚ) (opt : ℕ) (savedW : W) (tr : List EpochRecord),
    (∀ r ∈ tr, traceOK plateau tl vl r) →
    ∀ r ∈ (learnLoop plateau patience tl vl w fuel epoch lowest opt savedW tr).trace,
      traceOK plateau tl vl r := by
  intro fuel
  induction fuel with
  | zero =>
    intro epoch lowest opt savedW tr htr r hr
    simp only [learnLoop, List.mem_reverse] at hr
    exact htr r hr
  | succ fuel ih =>
    intro epoch lowest opt savedW tr htr r hr
    rcases htl : tl epoch with _ | t <;> rcases hvl : vl epoch with _ | v
    · simp only [learnLoop, htl, hvl] at hr
      rw [List.mem_reverse, List.mem_cons] at hr
      rcases hr with hr | hr
      · subst hr; simp [traceOK, htl, hvl, improves]
      · exact htr r hr
    · simp only [learnLoop, htl, hvl] at hr
      rw [List.mem_reverse, List.mem_cons] at hr
      rcases hr with hr | hr
      · subst hr; simp [traceOK, htl, hvl, improves]
      · exact htr r hr
    · simp only [learnLoop, htl, hvl] at hr
      rw [List.mem_reverse, List.mem_cons] at hr
      rcases hr with hr | hr
      · subst hr; simp [traceOK, htl, hvl, improves]
      · exact htr r hr
    · simp only [learnLoop, htl, hvl] at hr
      rcases Bool.eq_false_or_eq_true (improves (some v) lowest plateau) with himp | himp <;>
        simp only [himp, Bool.false_eq_true, if_true, if_false] at hr <;> split at hr
      · rw [List.mem_reverse, List.mem_cons] at hr
        rcases hr with hr | hr
        · subst hr; simp [traceOK, htl, hvl, himp]
        · exact htr r hr
      · refine ih _ _ _ _ _ ?_ r hr
        intro r' hr'
        rcases List.mem_cons.mp hr' with h | h
        · subst h; simp [traceOK, htl, hvl, himp]
        · exact htr r' h
      · rw [List.mem_reverse, List.mem_cons] at hr
        rcases hr with hr | hr
        · subst hr; simp [traceOK, htl, hvl, himp]
        · exact htr r hr
      · refine ih _ _ _ _ _ ?_ r hr
        intro r' hr'
        rcases List.mem_cons.mp hr' with h | h
        · subst h; simp [traceOK, htl, hvl, himp]
        · exact htr r' h

lemma learnLoop_completes {W : Type} (plateau : ℚ) (patience : ℕ)
    (tl vl : ℕ → Option ℚ) (w : ℕ → W) (g : ℕ → ℚ) :
    ∀ (fuel epoch : ℕ) (opt : ℕ) (savedW : W) (tr : List EpochRecord),
    1 ≤ epoch →
    (∀ e, epoch ≤ e → e < epoch + fuel → tl e ≠ none) →
    (∀ e, epoch - 1 ≤ e → e < epoch + fuel → vl e = some (g e)) →
    (∀ e, epoch ≤ e → e < epoch + fuel → g e < g (e - 1) * plateau) →
    (learnLoop plateau patience tl vl w fuel epoch (some (g (epoch - 1))) opt savedW tr).success
        = true ∧
    (learnLoop plateau patience tl vl w fuel epoch (some (g (epoch - 1))) opt savedW tr).outcome
        = .completed := by
  intro fuel
  induction fuel with
  | zero => intro epoch opt savedW tr _ _ _ _; simp [learnLoop]
  | succ fuel ih =>
    intro epoch opt savedW tr he htl hvl himp
    obtain ⟨t, htle⟩ := Option.ne_none_iff_exists'.mp (htl epoch le_rfl (by omega))
    have hvle : vl epoch = some (g epoch) := hvl epoch (by omega) (by omega)
    have himpe : improves (some (g epoch)) (some (g (epoch - 1))) plateau = true := by
      simp [improves]
      exact himp epoch le_rfl (by omega)
    simp only [learnLoop, htle, hvle, himpe, if_true]
    have hbr : ¬ (epoch - epoch > patience) := by omega
    simp only [hbr, if_false]
    have := ih (epoch + 1) epoch (w epoch)
      (⟨epoch, some (g (epoch - 1)), some t, some (g epoch), true, epoch⟩ :: tr)
      (by omega)
      (fun e h1 h2 => htl e (by omega) (by omega))
      (fun e h1 h2 => hvl e (by omega) (by omega))
      (fun e h1 h2 => himp e (by omega) (by omega))
    simpa using this

lemma learnLoop_stops {W : Type} (plateau : ℚ) (patience : ℕ)
    (tl vl : ℕ → Option ℚ) (w : ℕ → W) (L : ℚ) (E : ℕ) :
    ∀ (fuel j : ℕ) (savedW : W) (tr : List EpochRecord),
    1 ≤ j → j ≤ patience + 1 → patience + 2 - j ≤ fuel →
    (∀ e, E < e → e ≤ E + patience + 1 → tl e ≠ none) →
    (∀ e, E < e → e ≤ E + patience + 1 → ∃ ge, vl e = some ge ∧ ¬ (ge < L * plateau)) →
    (learnLoop plateau patience tl vl w fuel (E + j) (some L) E savedW tr).success = true ∧
    (learnLoop plateau patience tl vl w fuel (E + j) (some L) E savedW tr).outcome
        = .earlyStopped (E + patience + 1) ∧
    (learnLoop plateau patience tl vl w fuel (E + j) (some L) E savedW tr).optimalEpoch = E := by
  intro fuel
  induction fuel with
  | zero => intro j savedW tr h1 h2 h3 _ _; omega
  | succ fuel ih =>
    intro j savedW tr h1 h2 h3 htl hvl
    obtain ⟨t, htle⟩ := Option.ne_none_iff_exists'.mp (htl (E + j) (by omega) (by omega))
    obtain ⟨ge, hvle, hge⟩ := hvl (E + j) (by omega) (by omega)
    have himpe : improves (some ge) (some L) plateau = false := by
      simp [improves]
      exact not_lt.mp hge
    simp only [learnLoop, htle, hvle, himpe, Bool.false_eq_true, if_false]
    by_cases hbr : E + j - E > patience
    · have hj : j = patience + 1 := by omega
      subst hj
      have harith : E + (patience + 1) = E + patience + 1 := by omega
      simp only [hbr, if_true]
      refine ⟨by simp, by simp [harith], by simp⟩
    · simp only [hbr, if_false]
      have hstep : E + j + 1 = E + (j + 1) := by omega
      rw [hstep]
      exact ih (j + 1) savedW _ (by omega) (by omega) (by omega) htl hvl

lemma exitOK_mono {W : Type} {tl vl : ℕ → Option ℚ} {w : ℕ → W} {saved0 : W}
    {lo hi lo' hi' : ℕ} {res : LearnResult W} (h : exitOK tl vl w saved0 lo hi res)
    (hlo : lo' ≤ lo) (hhi : hi ≤ hi') : exitOK tl vl w saved0 lo' hi' res := by
  obtain ⟨h1, h2, h3, h4⟩ := h
  refine ⟨h1, h2, ?_, h4⟩
  intro e he
  obtain ⟨a, b, c, d⟩ := h3 e he
  exact ⟨by omega, by omega, c, d⟩

lemma learnLoop_exit {W : Type} (plateau : ℚ) (patience : ℕ)
    (tl vl : ℕ → Option ℚ) (w : ℕ → W) (saved0 : W) :
    ∀ (fuel epoch : ℕ) (lowest : Option ℚ) (opt : ℕ) (savedW : W) (tr : List EpochRecord),
    1 ≤ epoch → opt < epoch →
    (opt = 0 → savedW = saved0) → (1 ≤ opt → savedW = w opt) →
    exitOK tl vl w saved0 epoch (epoch + fuel)
      (learnLoop plateau patience tl vl w fuel epoch lowest opt savedW tr) := by
  intro fuel
  induction fuel with
  | zero =>
    intro epoch lowest opt savedW tr he hoe h0 h1
    simp only [learnLoop]
    exact ⟨by simp, by simp, by simp, fun _ => ⟨fun h => h0 h, fun h => h1 h⟩⟩
  | succ fuel ih =>
    intro epoch lowest opt savedW tr he hoe h0 h1
    rcases htl : tl epoch with _ | t <;> rcases hvl : vl epoch with _ | v
    · simp only [learnLoop, htl, hvl]
      refine ⟨by simp, by simp, ?_, by simp⟩
      intro e hee
      simp only [LearnOutcome.diverged.injEq] at hee
      subst hee
      exact ⟨le_rfl, by omega, Or.inl htl, rfl⟩
    · simp only [learnLoop, htl, hvl]
      refine ⟨by simp, by simp, ?_, by simp⟩
      intro e hee
      simp only [LearnOutcome.diverged.injEq] at hee
      subst hee
      exact ⟨le_rfl, by omega, Or.inl htl, rfl⟩
    · simp only [learnLoop, htl, hvl]
      refine ⟨by simp, by simp, ?_, by simp⟩
      intro e hee
      simp only [LearnOutcome.diverged.injEq] at hee
      subst hee
      exact ⟨le_rfl, by omega, Or.inr hvl, rfl⟩
    · simp only [learnLoop, htl, hvl]
      rcases Bool.eq_false_or_eq_true (improves (some v) lowest plateau) with himp | himp <;>
        simp only [himp, Bool.false_eq_true, if_true, if_false] <;> split
      · refine ⟨by simp, by simp, by simp, ?_⟩
        intro _
        exact ⟨fun h => by omega, fun _ => rfl⟩
      · refine exitOK_mono (ih (epoch + 1) (some v) epoch (w epoch) _ (by omega) (by omega)
          (fun h => by omega) (fun _ => rfl)) (by omega) (by omega)
      · refine ⟨by simp, by simp, by simp, ?_⟩
        intro _
        exact ⟨fun h => h0 h, fun h => h1 h⟩
      · refine exitOK_mono (ih (epoch + 1) lowest opt savedW _ (by omega) (by omega) h0 h1)
          (by omega) (by omega)

lemma learnRun_exit {W : Type} (plateau : ℚ) (patience maxEpoch : ℕ)
    (tl vl : ℕ → Option ℚ) (w : ℕ → W) (saved0 : W) :
    exitOK tl vl w saved0 1 (1 + (maxEpoch - 1))
      (learnRun plateau patience maxEpoch tl vl w saved0) :=
  learnLoop_exit plateau patience tl vl w saved0 (maxEpoch - 1) 1 (vl 0) 0 saved0 []
    le_rfl Nat.zero_lt_one (fun _ => rfl) (fun h => by omega)

lemma foldl_add_eq {α : Type} (f : α → ℚ) (g : ℚ → α → ℚ)
    (hg : ∀ a x, g a x = a + f x) :
    ∀ (l : List α) (a : ℚ), l.foldl g a = a + (l.map f).sum := by
  intro l
  induction l with
  | nil => intro a; simp
  | cons x xs ih =>
    intro a
    rw [List.foldl_cons, hg, ih, List.map_cons, List.sum_cons, add_assoc]

lemma l1Acc_eq (ws : NetWeights) : l1Acc ws = sumAbs ws := by
  have h0 : ∀ (row : List ℚ) (a : ℚ),
      row.foldl (fun acc x => acc + |x|) a = a + (row.map (fun x => |x|)).sum :=
    fun row a => foldl_add_eq (fun x => |x|) _ (fun _ _ => rfl) row a
  have h1 : ∀ (n : NeuronW) (a : ℚ),
      n.1.foldl (fun acc row => row.foldl (fun acc x => acc + |x|) acc) a
        = a + (n.1.map (fun row => (row.map (fun x => |x|)).sum)).sum :=
    fun n a => foldl_add_eq _ _ (fun a row => h0 row a) n.1 a
  have h2 : ∀ (layer : List NeuronW) (a : ℚ),
      layer.foldl (fun acc n =>
        n.1.foldl (fun acc row => row.foldl (fun acc x => acc + |x|) acc) acc) a
      = a + (layer.map (fun n =>
          (n.1.map (fun row => (row.map (fun x => |x|)).sum)).sum)).sum :=
    fun layer a => foldl_add_eq _ _ (fun a n => h1 n a) layer a
  have h3 := foldl_add_eq
    (fun layer : List NeuronW => (layer.map (fun n =>
      (n.1.map (fun row => (row.map (fun x => |x|)).sum)).sum)).sum)
    _ (fun a layer => h2 layer a) ws 0
  simpa [l1Acc, sumAbs] using h3

lemma l2Acc_eq (ws : NetWeights) : l2Acc ws = sumSq ws := by
  have h0 : ∀ (row : List ℚ) (a : ℚ),
      row.foldl (fun acc x => acc + x ^ 2) a = a + (row.map (fun x => x ^ 2)).sum :=
    fun row a => foldl_add_eq (fun x => x ^ 2) _ (fun _ _ => rfl) row a
  have h1 : ∀ (n : NeuronW) (a : ℚ),
      n.1.foldl (fun acc row => row.foldl (fun acc x => acc + x ^ 2) acc) a
        = a + (n.1.map (fun row => (row.map (fun x => x ^ 2)).sum)).sum :=
    fun n a => foldl_add_eq _ _ (fun a row => h0 row a) n.1 a
  have h2 : ∀ (layer : List NeuronW) (a : ℚ),
      layer.foldl (fun acc n =>
        n.1.foldl (fun acc row => row.foldl (fun acc x => acc + x ^ 2) acc) acc) a
      = a + (layer.map (fun n =>
          (n.1.map (fun row => (row.map (fun x => x ^ 2)).sum)).sum)).sum :=
    fun layer a => foldl_add_eq _ _ (fun a n => h1 n a) layer a
  have h3 := foldl_add_eq
    (fun layer : List NeuronW => (layer.map (fun n =>
      (n.1.map (fun row => (row.map (fun x => x ^ 2)).sum)).sum)).sum)
    _ (fun a layer => h2 layer a) ws 0
  simpa [l2Acc, sumSq] using h3

/-! ## Claim C1 -/

/-- C1 (amended): with nonneg ratios of positive sum, a positive batch
size, a dataset smaller than 2^32 with at least one full batch and
`nbTrain ≤ N`, the train/validation/test sizes of `shuffleData` sum
exactly to `N`; and the training size equals `nbBatch * batchSize` (hence
is a multiple of the batch size, so every batch of every epoch is
complete) exactly in the case that the two rounded allocations consume
the whole non-batch-aligned leftover `noTrain` - which the original claim
asserted unconditionally and which fails in general. -/
theorem shuffleData_partition_sizes (N bs : ℕ) (v t : ℚ)
    (hv : 0 ≤ v) (ht : 0 ≤ t) (hvt : 0 < v + t) (hvt1 : v + t < 1)
    (hbs : 0 < bs) (hN : N < 2 ^ 32)
    (hbatch : 1 ≤ nbBatchOf N bs v t) (htr : nbTrainOf N bs v t ≤ N) :
    trainCountOf N bs v t + validCountOf N bs v t + testCountOf N bs v t = N ∧
    (validCountOf N bs v t + testCountOf N bs v t = noTrainOf N bs v t →
      trainCountOf N bs v t = nbBatchOf N bs v t * bs ∧ bs ∣ trainCountOf N bs v t) := by
  have hno : noTrainOf N bs v t = N - nbTrainOf N bs v t := by
    unfold noTrainOf
    have h1 : ((N : ℤ) - (nbTrainOf N bs v t : ℤ)) % (2 ^ 32 : ℤ)
        = (N : ℤ) - (nbTrainOf N bs v t : ℤ) := by
      apply Int.emod_eq_of_lt
      · exact Int.sub_nonneg.mpr (by exact_mod_cast htr)
      · push_cast; omega
    rw [h1]; omega
  have hvq : 0 ≤ (noTrainOf N bs v t : ℚ) * v / (v + t) :=
    div_nonneg (mul_nonneg (by positivity) hv) (le_of_lt hvt)
  have htq : 0 ≤ (noTrainOf N bs v t : ℚ) * t / (v + t) :=
    div_nonneg (mul_nonneg (by positivity) ht) (le_of_lt hvt)
  have hb1 := qround_le _ hvq
  have hb2 := qround_le _ htq
  have hsum : ((noTrainOf N bs v t : ℚ) * v / (v + t)) + ((noTrainOf N bs v t : ℚ) * t / (v + t))
      = (noTrainOf N bs v t : ℚ) := by
    rw [div_add_div_same, ← mul_add, mul_div_assoc, div_self (ne_of_gt hvt), mul_one]
  have hle : (validCountOf N bs v t : ℚ) + (testCountOf N bs v t : ℚ)
      ≤ (noTrainOf N bs v t : ℚ) + 1 := by
    unfold validCountOf testCountOf
    calc ((qround ((noTrainOf N bs v t : ℚ) * v / (v + t))).toNat : ℚ)
          + ((qround ((noTrainOf N bs v t : ℚ) * t / (v + t))).toNat : ℚ)
        ≤ ((noTrainOf N bs v t : ℚ) * v / (v + t) + 1/2)
          + ((noTrainOf N bs v t : ℚ) * t / (v + t) + 1/2) := add_le_add hb1 hb2
      _ = (noTrainOf N bs v t : ℚ) + 1 := by linarith [hsum]
  have hleN : validCountOf N bs v t + testCountOf N bs v t ≤ noTrainOf N bs v t + 1 := by
    exact_mod_cast hle
  have htr1 : 1 ≤ nbTrainOf N bs v t := Nat.mul_pos hbatch hbs
  constructor
  · unfold trainCountOf; omega
  · intro heq
    have ht1 : trainCountOf N bs v t = nbTrainOf N bs v t := by
      unfold trainCountOf
      omega
    rw [nbTrainOf] at ht1
    exact ⟨ht1, ht1 ▸ dvd_mul_left bs (nbBatchOf N bs v t)⟩

/-- C1 witness: `N = 10`, batch size 2, both ratios 1/4 (all exactly
representable as doubles): three batches, 6/2/2 split. -/
theorem shuffleData_partition_sizes_witness :
    ((0:ℚ) ≤ 1/4 ∧ (0:ℚ) < 1/4 + 1/4 ∧ (1/4 : ℚ) + 1/4 < 1 ∧ (0:ℕ) < 2 ∧
      (10:ℕ) < 2 ^ 32 ∧ 1 ≤ nbBatchOf 10 2 (1/4) (1/4) ∧ nbTrainOf 10 2 (1/4) (1/4) ≤ 10) ∧
    (trainCountOf 10 2 (1/4) (1/4) + validCountOf 10 2 (1/4) (1/4)
        + testCountOf 10 2 (1/4) (1/4) = 10 ∧
     (validCountOf 10 2 (1/4) (1/4) + testCountOf 10 2 (1/4) (1/4)
          = noTrainOf 10 2 (1/4) (1/4) →
       trainCountOf 10 2 (1/4) (1/4) = nbBatchOf 10 2 (1/4) (1/4) * 2 ∧
       2 ∣ trainCountOf 10 2 (1/4) (1/4))) := by
  have hb3 : nbBatchOf 10 2 (1/4) (1/4) = 3 := by
    norm_num [nbBatchOf, nbBatchReal, qtrunc]
    rfl
  have htr6 : nbTrainOf 10 2 (1/4) (1/4) = 6 := by
    norm_num [nbTrainOf, hb3]
  refine ⟨⟨by norm_num, by norm_num, by norm_num, by norm_num, by norm_num,
      by rw [hb3]; norm_num, by rw [htr6]; norm_num⟩, ?_⟩
  exact shuffleData_partition_sizes 10 2 (1/4) (1/4) (by norm_num) (by norm_num)
    (by norm_num) (by norm_num) (by norm_num) (by norm_num)
    (by rw [hb3]; norm_num) (by rw [htr6]; norm_num)

/-- C1 counterexample: `N = 9`, batch size 2, both ratios 1/4 (exact
doubles): the two rounded allocations take 3 + 3 = 6 rows out of the
leftover 5, so the training set keeps 3 rows, which is not a multiple of
the batch size (while `_nbBatch` stays 2, so `performeOneEpoch` would
read past the training set). -/
theorem shuffleData_partition_counterexample :
    ((0:ℚ) ≤ 1/4 ∧ (1/4 : ℚ) + 1/4 < 1 ∧ (0:ℕ) < 2) ∧
    shuffleSizes 9 2 (1/4) (1/4) = (3, 3, 3) ∧
    ¬ (2 ∣ trainCountOf 9 2 (1/4) (1/4)) := by
  have h1 : nbBatchOf 9 2 (1/4) (1/4) = 2 := by
    norm_num [nbBatchOf, nbBatchReal, qtrunc]
    rfl
  have h2 : noTrainOf 9 2 (1/4) (1/4) = 5 := by
    norm_num [noTrainOf, nbTrainOf, h1]
    rfl
  have h3 : validCountOf 9 2 (1/4) (1/4) = 3 := by
    norm_num [validCountOf, h2, qround]
    rfl
  have h4 : testCountOf 9 2 (1/4) (1/4) = 3 := by
    norm_num [testCountOf, h2, qround]
    rfl
  have h5 : trainCountOf 9 2 (1/4) (1/4) = 3 := by
    norm_num [trainCountOf, h3, h4]
  refine ⟨⟨by norm_num, by norm_num, by norm_num⟩, ?_, ?_⟩
  · rw [shuffleSizes, h3, h4, h5]
  · rw [h5]
    norm_num

/-! ## Claim C2 -/

/-- C2 (confirmed): in `learn`'s epoch loop an epoch is checkpointed and
recorded as the new optimal epoch exactly when its validation loss is
strictly below `lowestLoss * plateau` (first conjunct, over the trace of
any run); a run whose validation losses beat the running lowest by the
plateau factor at every epoch completes all `maxEpoch - 1` epochs (second
conjunct); and from any state whose optimal epoch is `E` with recorded
lowest loss `L`, if no later epoch improves on `L * plateau` and the
epoch budget suffices, the loop stops exactly at epoch
`E + patience + 1` with optimal epoch `E` (third conjunct). -/
theorem learn_early_stopping {W : Type} (plateau : ℚ) (patience maxEpoch : ℕ)
    (tl vl tlB vlB tlC vlC : ℕ → Option ℚ) (w : ℕ → W) (saved0 savedW : W)
    (gB : ℕ → ℚ) (L : ℚ) (E fuel : ℕ) (tr : List EpochRecord)
    (hB0 : ∀ e, e < maxEpoch → vlB e = some (gB e))
    (hB1 : ∀ e, 1 ≤ e → e < maxEpoch → tlB e ≠ none)
    (hB2 : ∀ e, 1 ≤ e → e < maxEpoch → gB e < gB (e - 1) * plateau)
    (hC1 : patience + 1 ≤ fuel)
    (hC2 : ∀ e, E < e → e ≤ E + patience + 1 → tlC e ≠ none)
    (hC3 : ∀ e, E < e → e ≤ E + patience + 1 → ∃ ge, vlC e = some ge ∧ ¬ (ge < L * plateau)) :
    (∀ r ∈ (learnRun plateau patience maxEpoch tl vl w saved0).trace,
        r.didSave = ((tl r.epoch).isSome && improves (vl r.epoch) r.lowestBefore plateau) ∧
        (r.didSave = true → r.optimalAfter = r.epoch)) ∧
    ((learnRun plateau patience maxEpoch tlB vlB w saved0).success = true ∧
     (learnRun plateau patience maxEpoch tlB vlB w saved0).outcome = .completed) ∧
    ((learnLoop plateau patience tlC vlC w fuel (E + 1) (some L) E savedW tr).outcome
        = .earlyStopped (E + patience + 1) ∧
     (learnLoop plateau patience tlC vlC w fuel (E + 1) (some L) E savedW tr).optimalEpoch
        = E) := by
  refine ⟨?_, ?_, ?_⟩
  · intro r hr
    have := learnLoop_trace plateau patience tl vl w (maxEpoch - 1) 1 (vl 0) 0 saved0 []
      (by simp) r hr
    exact ⟨this.1, this.2.1⟩
  · rcases Nat.eq_zero_or_pos maxEpoch with h0 | h0
    · subst h0; simp [learnRun, learnLoop]
    · have h00 : vlB 0 = some (gB 0) := hB0 0 h0
      unfold learnRun
      rw [h00]
      have := learnLoop_completes plateau patience tlB vlB w gB (maxEpoch - 1) 1 0 saved0 []
        le_rfl
        (fun e h1 h2 => hB1 e h1 (by omega))
        (fun e h1 h2 => hB0 e (by omega))
        (fun e h1 h2 => hB2 e h1 (by omega))
      simpa using this
  · have := learnLoop_stops plateau patience tlC vlC w L E fuel 1 savedW tr
      le_rfl (by omega) (by omega) hC2 hC3
    exact ⟨this.2.1, this.2.2⟩

/-- C2 witness: a strictly plateau-beating loss sequence completes a
3-epoch run, and a flat loss sequence entering at optimal epoch 0 with
patience 1 stops exactly at epoch 2. -/
theorem learn_early_stopping_witness :
    (∀ r ∈ (learnRun (1/2 : ℚ) 1 3 (fun _ => some 1) (fun _ => some 1)
        (fun _ => (0 : ℕ)) 0).trace,
        r.didSave = (((fun _ => some (1:ℚ)) r.epoch).isSome &&
          improves ((fun _ => some (1:ℚ)) r.epoch) r.lowestBefore (1/2)) ∧
        (r.didSave = true → r.optimalAfter = r.epoch)) ∧
    ((learnRun (1/2 : ℚ) 1 3 (fun _ => some 1)
        (fun e => some ([1, 1/3, 1/9].getD e 0)) (fun _ => (0 : ℕ)) 0).success = true ∧
     (learnRun (1/2 : ℚ) 1 3 (fun _ => some 1)
        (fun e => some ([1, 1/3, 1/9].getD e 0)) (fun _ => (0 : ℕ)) 0).outcome = .completed) ∧
    ((learnLoop (1/2 : ℚ) 1 (fun _ => some 1) (fun _ => some 1) (fun _ => (0 : ℕ))
        2 (0 + 1) (some 1) 0 0 []).outcome = .earlyStopped (0 + 1 + 1) ∧
     (learnLoop (1/2 : ℚ) 1 (fun _ => some 1) (fun _ => some 1) (fun _ => (0 : ℕ))
        2 (0 + 1) (some 1) 0 0 []).optimalEpoch = 0) := by
  refine learn_early_stopping (1/2) 1 3 (fun _ => some 1) (fun _ => some 1)
    (fun _ => some 1) (fun e => some ([1, 1/3, 1/9].getD e 0))
    (fun _ => some 1) (fun _ => some 1) (fun _ => (0 : ℕ)) 0 0
    (fun e => [1, 1/3, 1/9].getD e 0) 1 0 2 []
    (fun e _ => rfl) (fun e _ _ => by simp) ?_ (by omega) (fun e _ _ => by simp) ?_
  · intro e h1 h2
    interval_cases e <;> norm_num
  · intro e _ _
    exact ⟨1, rfl, by norm_num⟩

/-! ## Claim C3 -/

/-- C3 counterexample: a NaN validation loss computed at epoch 0 (the
pre-loop `lowestLoss = computeLoss()` baseline) does not make `learn`
return false: with all later losses finite the shown run returns true,
because the NaN check only covers epochs of the loop. -/
theorem learn_nan_baseline_counterexample :
    (fun e => if e = 0 then none else some (1:ℚ)) 0 = none ∧
    (learnRun (1/2 : ℚ) 0 3 (fun _ => some 1)
      (fun e => if e = 0 then none else some 1) (fun _ => (0 : ℕ)) 0).success = true :=
  ⟨rfl, by simp [learnRun, learnLoop, improves]⟩

/-- C3 (amended): `learn()` returns false exactly when some epoch of the
epoch loop (epoch ≥ 1; the epoch-0 baseline loss is not NaN-checked)
computes a NaN training or validation loss before the loop exits, and
returns true otherwise - after the early-stopping break or after
exhausting the epochs; the failure is a status result, no exception. -/
theorem learn_nan_failure {W : Type} (plateau : ℚ) (patience maxEpoch : ℕ)
    (tl vl : ℕ → Option ℚ) (w : ℕ → W) (saved0 : W) :
    ((∀ e, 1 ≤ e → e < maxEpoch → tl e ≠ none ∧ vl e ≠ none) →
      (learnRun plateau patience maxEpoch tl vl w saved0).success = true) ∧
    ((learnRun plateau patience maxEpoch tl vl w saved0).success = false ↔
      ∃ e, 1 ≤ e ∧ e < maxEpoch ∧
        (learnRun plateau patience maxEpoch tl vl w saved0).outcome = .diverged e ∧
        (tl e = none ∨ vl e = none)) := by
  obtain ⟨h1, _h2, h3, _h4⟩ := learnRun_exit plateau patience maxEpoch tl vl w saved0
  constructor
  · intro hnn
    by_contra hs
    have hfalse : (learnRun plateau patience maxEpoch tl vl w saved0).success = false := by
      cases hb : (learnRun plateau patience maxEpoch tl vl w saved0).success
      · rfl
      · exact absurd hb hs
    obtain ⟨e, he⟩ := h1.mp hfalse
    obtain ⟨ha, hb, hc, _⟩ := h3 e he
    rcases hc with hc | hc
    · exact (hnn e ha (by omega)).1 hc
    · exact (hnn e ha (by omega)).2 hc
  · constructor
    · intro hfalse
      obtain ⟨e, he⟩ := h1.mp hfalse
      obtain ⟨ha, hb, hc, _⟩ := h3 e he
      exact ⟨e, ha, by omega, he, hc⟩
    · intro ⟨e, _, _, he, _⟩
      exact h1.mpr ⟨e, he⟩

/-- C3 witness: the amended statement instantiated at a concrete 3-epoch
run with finite losses. -/
theorem learn_nan_failure_witness :
    ((∀ e, 1 ≤ e → e < 3 → (fun _ => some (1:ℚ)) e ≠ none ∧ (fun _ => some (1:ℚ)) e ≠ none) →
      (learnRun (1/2 : ℚ) 5 3 (fun _ => some 1) (fun _ => some 1)
        (fun _ => (0 : ℕ)) 0).success = true) ∧
    ((learnRun (1/2 : ℚ) 5 3 (fun _ => some 1) (fun _ => some 1)
        (fun _ => (0 : ℕ)) 0).success = false ↔
      ∃ e, 1 ≤ e ∧ e < 3 ∧
        (learnRun (1/2 : ℚ) 5 3 (fun _ => some 1) (fun _ => some 1)
          (fun _ => (0 : ℕ)) 0).outcome = .diverged e ∧
        ((fun _ => some (1:ℚ)) e = none ∨ (fun _ => some (1:ℚ)) e = none)) :=
  learn_nan_failure (1/2) 5 3 (fun _ => some 1) (fun _ => some 1) (fun _ => (0 : ℕ)) 0

/-! ## Claim C9 -/

/-- C9 (confirmed): `loadSaved()` runs exactly on the successful exit
paths of `learn`; a NaN divergence at epoch `e` returns false immediately,
leaving the layers holding the diverged weights `w e` without restoring
the checkpoint; on success the layers hold the checkpointed optimal
weights (the initial checkpoint content if no epoch ever saved). -/
theorem learn_restore_policy {W : Type} (plateau : ℚ) (patience maxEpoch : ℕ)
    (tl vl : ℕ → Option ℚ) (w : ℕ → W) (saved0 : W) :
    ((learnRun plateau patience maxEpoch tl vl w saved0).restoredCheckpoint =
      (learnRun plateau patience maxEpoch tl vl w saved0).success) ∧
    (∀ e, (learnRun plateau patience maxEpoch tl vl w saved0).outcome = .diverged e →
      (learnRun plateau patience maxEpoch tl vl w saved0).success = false ∧
      (learnRun plateau patience maxEpoch tl vl w saved0).restoredCheckpoint = false ∧
      (learnRun plateau patience maxEpoch tl vl w saved0).finalWeights = w e) ∧
    ((learnRun plateau patience maxEpoch tl vl w saved0).success = true →
      ((learnRun plateau patience maxEpoch tl vl w saved0).optimalEpoch = 0 →
        (learnRun plateau patience maxEpoch tl vl w saved0).finalWeights = saved0) ∧
      (1 ≤ (learnRun plateau patience maxEpoch tl vl w saved0).optimalEpoch →
        (learnRun plateau patience maxEpoch tl vl w saved0).finalWeights =
          w (learnRun plateau patience maxEpoch tl vl w saved0).optimalEpoch)) := by
  obtain ⟨h1, h2, h3, h4⟩ := learnRun_exit plateau patience maxEpoch tl vl w saved0
  refine ⟨h2, ?_, h4⟩
  intro e he
  have hfalse : (learnRun plateau patience maxEpoch tl vl w saved0).success = false :=
    h1.mpr ⟨e, he⟩
  obtain ⟨_, _, _, hw⟩ := h3 e he
  exact ⟨hfalse, by rw [h2, hfalse], hw⟩

/-- C9 witness: the restore policy instantiated at a concrete run. -/
theorem learn_restore_policy_witness :
    ((learnRun (1/2 : ℚ) 5 3 (fun _ => some 1) (fun _ => some 1)
        (fun _ => (7 : ℕ)) 9).restoredCheckpoint =
      (learnRun (1/2 : ℚ) 5 3 (fun _ => some 1) (fun _ => some 1)
        (fun _ => (7 : ℕ)) 9).success) ∧
    (∀ e, (learnRun (1/2 : ℚ) 5 3 (fun _ => some 1) (fun _ => some 1)
        (fun _ => (7 : ℕ)) 9).outcome = .diverged e →
      (learnRun (1/2 : ℚ) 5 3 (fun _ => some 1) (fun _ => some 1)
        (fun _ => (7 : ℕ)) 9).success = false ∧
      (learnRun (1/2 : ℚ) 5 3 (fun _ => some 1) (fun _ => some 1)
        (fun _ => (7 : ℕ)) 9).restoredCheckpoint = false ∧
      (learnRun (1/2 : ℚ) 5 3 (fun _ => some 1) (fun _ => some 1)
        (fun _ => (7 : ℕ)) 9).finalWeights = (fun _ => (7 : ℕ)) e) ∧
    ((learnRun (1/2 : ℚ) 5 3 (fun _ => some 1) (fun _ => some 1)
        (fun _ => (7 : ℕ)) 9).success = true →
      ((learnRun (1/2 : ℚ) 5 3 (fun _ => some 1) (fun _ => some 1)
          (fun _ => (7 : ℕ)) 9).optimalEpoch = 0 →
        (learnRun (1/2 : ℚ) 5 3 (fun _ => some 1) (fun _ => some 1)
          (fun _ => (7 : ℕ)) 9).finalWeights = 9) ∧
      (1 ≤ (learnRun (1/2 : ℚ) 5 3 (fun _ => some 1) (fun _ => some 1)
          (fun _ => (7 : ℕ)) 9).optimalEpoch →
        (learnRun (1/2 : ℚ) 5 3 (fun _ => some 1) (fun _ => some 1)
          (fun _ => (7 : ℕ)) 9).finalWeights =
          (fun _ => (7 : ℕ))
            (learnRun (1/2 : ℚ) 5 3 (fun _ => some 1) (fun _ => some 1)
              (fun _ => (7 : ℕ)) 9).optimalEpoch)) :=
  learn_restore_policy (1/2) 5 3 (fun _ => some 1) (fun _ => some 1) (fun _ => (7 : ℕ)) 9

/-! ## Claim C10 -/

/-- C10 (confirmed): `computeLoss` adds one identical penalty -
`_L1` times the sum of absolute weight values plus `0.5 * _L2` times the
sum of squared weight values over every weight of every neuron of every
layer - to both the recorded training loss and the recorded validation
loss; consequently, in a run of the epoch loop whose validation losses
come from `computeLoss`, every recorded validation loss compared against
`lowestLoss * plateau` includes that penalty. -/
theorem computeLoss_shared_penalty {W : Type} (l1c l2c : ℚ) (ws : NetWeights)
    (trainAvg validAvg : ℚ) (plateau : ℚ) (patience maxEpoch : ℕ)
    (tl : ℕ → Option ℚ) (wsAt : ℕ → NetWeights) (tAvg vAvg : ℕ → ℚ)
    (w : ℕ → W) (saved0 : W) :
    ((computeLossPair l1c l2c ws trainAvg validAvg).1
        = trainAvg + (l1c * sumAbs ws + l2c * (1/2) * sumSq ws) ∧
     (computeLossPair l1c l2c ws trainAvg validAvg).2
        = validAvg + (l1c * sumAbs ws + l2c * (1/2) * sumSq ws)) ∧
    (∀ r ∈ (learnRun plateau patience maxEpoch tl
        (fun e => some ((computeLossPair l1c l2c (wsAt e) (tAvg e) (vAvg e)).2))
        w saved0).trace,
      r.validLoss = some (vAvg r.epoch +
        (l1c * sumAbs (wsAt r.epoch) + l2c * (1/2) * sumSq (wsAt r.epoch)))) := by
  have hpen : ∀ tv : ℚ, tv + l1Acc ws * l1c + l2Acc ws * (l2c * (1/2))
      = tv + (l1c * sumAbs ws + l2c * (1/2) * sumSq ws) := by
    intro tv
    rw [l1Acc_eq, l2Acc_eq]
    ring
  refine ⟨⟨hpen trainAvg, hpen validAvg⟩, ?_⟩
  intro r hr
  have htr := learnLoop_trace plateau patience tl
    (fun e => some ((computeLossPair l1c l2c (wsAt e) (tAvg e) (vAvg e)).2))
    w (maxEpoch - 1) 1 _ 0 saved0 [] (by simp) r hr
  have hv := htr.2.2.2
  rw [hv]
  have heq : (computeLossPair l1c l2c (wsAt r.epoch) (tAvg r.epoch) (vAvg r.epoch)).2
      = vAvg r.epoch +
        (l1c * sumAbs (wsAt r.epoch) + l2c * (1/2) * sumSq (wsAt r.epoch)) := by
    show vAvg r.epoch + l1Acc (wsAt r.epoch) * l1c
        + l2Acc (wsAt r.epoch) * (l2c * (1/2)) = _
    rw [l1Acc_eq, l2Acc_eq]
    ring
  show some (computeLossPair l1c l2c (wsAt r.epoch) (tAvg r.epoch) (vAvg r.epoch)).2 = _
  rw [heq]

/-- C10 witness: the shared penalty evaluated on a concrete weight set,
and the recorded validation loss of the one epoch of a concrete run. -/
theorem computeLoss_shared_penalty_witness :
    ((computeLossPair 2 4 [[([[3, -5]], [1])]] 10 20).1
        = 10 + (2 * sumAbs [[([[3, -5]], [1])]] + 4 * (1/2) * sumSq [[([[3, -5]], [1])]]) ∧
     (computeLossPair 2 4 [[([[3, -5]], [1])]] 10 20).2
        = 20 + (2 * sumAbs [[([[3, -5]], [1])]] + 4 * (1/2) * sumSq [[([[3, -5]], [1])]])) ∧
    (⟨1, some ((computeLossPair 2 4 [] 0 1).2), some 0,
        some ((computeLossPair 2 4 [] 0 1).2), false, 0⟩ : EpochRecord).validLoss
      = some (1 + (2 * sumAbs [] + 4 * (1/2) * sumSq [])) := by
  have h := computeLoss_shared_penalty (W := ℕ) 2 4 [[([[3, -5]], [1])]] 10 20 (1/2) 0 2
    (fun _ => some 0) (fun _ => []) (fun _ => 0) (fun _ => 1) (fun _ => 0) 0
  refine ⟨h.1, ?_⟩
  have himp : improves (some ((computeLossPair 2 4 [] 0 1).2))
      (some ((computeLossPair 2 4 [] 0 1).2)) (1/2) = false := by
    simp only [improves, computeLossPair, l1Acc, l2Acc, decide_eq_false_iff_not, not_lt]
    norm_num
  have hmem : (⟨1, some ((computeLossPair 2 4 [] 0 1).2), some 0,
      some ((computeLossPair 2 4 [] 0 1).2), false, 0⟩ : EpochRecord) ∈
      (learnRun (1/2 : ℚ) 0 2 (fun _ => some 0)
        (fun e => some ((computeLossPair 2 4 ((fun _ => ([] : NetWeights)) e)
          ((fun _ => (0:ℚ)) e) ((fun _ => (1:ℚ)) e)).2))
        (fun _ => (0 : ℕ)) 0).trace := by
    have himp' := himp
    simp only [one_div] at himp'
    simp [learnRun, learnLoop, himp']
  have := h.2 _ hmem
  simpa using this

/-! ## Claim C4 -/

/-- C4 counterexample: with dropout 1/2 active, the draw sequence
true/false zeroes sample 0 of a neuron's output while scaling sample 1 to
a nonzero value: the column is neither entirely zeroed nor entirely
scaled, refuting the one-draw-per-neuron claim. -/
theorem dropout_counterexample :
    (1/2 : ℚ) > machineEps ∧
    dropoutColumn [1, 1] (1/2) (fun n => n == 0) = [0, 2] ∧
    ¬ ((∀ x ∈ dropoutColumn [1, 1] (1/2) (fun n => n == 0), x = 0) ∨
       (∀ x ∈ dropoutColumn [1, 1] (1/2) (fun n => n == 0), x = 1 / (1 - 1/2))) := by
  have hd : (1/2 : ℚ) > machineEps := by norm_num [machineEps]
  have hcol : dropoutColumn [1, 1] (1/2) (fun n => n == 0) = [0, 2] := by
    norm_num [dropoutColumn, machineEps, List.range_succ]
  refine ⟨hd, hcol, ?_⟩
  rw [hcol]
  intro h
  rcases h with h | h
  · have := h 2 (by simp)
    norm_num at this
  · have := h 0 (by simp)
    norm_num at this

/-- C4 (amended): under an active dropout rate the per-sample loop of
`performProcessToLearn` makes one Bernoulli draw per (sample, neuron)
output element: element `j` of a neuron's output column is zeroed when
its own draw fires and otherwise scaled by `1/(1-dropout)`; distinct
samples of one neuron are zeroed or kept independently. -/
theorem dropout_per_sample (result : List ℚ) (dropout : ℚ) (draws : ℕ → Bool) (j : ℕ)
    (hj : j < result.length) (hd : dropout > machineEps) :
    (dropoutColumn result dropout draws).getD j 0
      = if draws j then 0 else result.getD j 0 / (1 - dropout) := by
  have hlen : j < ((List.range result.length).map fun j =>
      if dropout > machineEps then
        (if draws j then 0 else result.getD j 0 / (1 - dropout))
      else result.getD j 0).length := by simpa using hj
  rw [dropoutColumn, List.getD_eq_getElem _ _ hlen, List.getElem_map, List.getElem_range,
    if_pos hd]

/-- C4 witness: the per-sample rule evaluated at sample 1 of a
two-sample column. -/
theorem dropout_per_sample_witness :
    (1 < [(5:ℚ), 7].length ∧ (1/2 : ℚ) > machineEps) ∧
    (dropoutColumn [5, 7] (1/2) (fun n => n == 0)).getD 1 0
      = if (1 == 0 : Bool) then 0 else [(5:ℚ), 7].getD 1 0 / (1 - 1/2) :=
  ⟨⟨by norm_num, by norm_num [machineEps]⟩,
    dropout_per_sample [5, 7] (1/2) (fun n => n == 0) 1 (by norm_num) (by norm_num [machineEps])⟩

/-! ## Claim C5 -/

/-- C5 counterexample: two runs configured with the same seed value 0 and
identical data: the constructor replaces seed 0 by the clock tick, so
runs at clock ticks 1 and 2 partition the same two-row dataset
differently (the validation sets even swap contents). -/
theorem seed_zero_counterexample :
    (shuffledPartition 0 1 1 (1/2) (1/4) [0, 1]
        ≠ shuffledPartition 0 2 1 (1/2) (1/4) [(0:ℕ), 1]) ∧
    shuffledPartition 0 1 1 (1/2) (1/4) [(0:ℕ), 1] = ([], [0], [1]) ∧
    shuffledPartition 0 2 1 (1/2) (1/4) [(0:ℕ), 1] = ([], [1], [0]) := by
  have hno : noTrainOf 2 1 (1/2) (1/4) = 2 := by
    have hb : nbBatchOf 2 1 (1/2) (1/4) = 0 := by
      norm_num [nbBatchOf, nbBatchReal, qtrunc]
    norm_num [noTrainOf, nbTrainOf, hb]
    rfl
  have hv : validCountOf 2 1 (1/2) (1/4) = 1 := by
    norm_num [validCountOf, hno, qround]
  have ht : testCountOf 2 1 (1/2) (1/4) = 1 := by
    norm_num [testCountOf, hno, qround]
  have hs1 : stdShuffle 1 [(0:ℕ), 1] = [1, 0] := by
    simp [stdShuffle, List.range_succ, swapL, mtStream, mtNext]
  have hs2 : stdShuffle 2 [(0:ℕ), 1] = [0, 1] := by
    simp [stdShuffle, List.range_succ, swapL, mtStream, mtNext]
  have hv' := hv
  have ht' := ht
  simp only [one_div] at hv' ht'
  have h1 : shuffledPartition 0 1 1 (1/2) (1/4) [(0:ℕ), 1] = ([], [0], [1]) := by
    simp [shuffledPartition, effectiveSeed, hs1, hv', ht']
  have h2 : shuffledPartition 0 2 1 (1/2) (1/4) [(0:ℕ), 1] = ([], [1], [0]) := by
    simp [shuffledPartition, effectiveSeed, hs2, hv', ht']
  refine ⟨?_, h1, h2⟩
  rw [h1, h2]
  simp

/-- C5 (amended): for every nonzero configured seed value, two runs with
identical configuration and raw dataset produce identical dataset
partitions (train/validation/test contents and order) and identical
initial weights, whatever the clock reads; a configured seed of 0 is
replaced by the clock and is exempt. -/
theorem seeded_runs_deterministic {α : Type} [Inhabited α] (s c1 c2 bs : ℕ) (v t : ℚ)
    (data : List α) (nW : ℕ) (hs : s ≠ 0) :
    shuffledPartition s c1 bs v t data = shuffledPartition s c2 bs v t data ∧
    initialWeights s c1 nW = initialWeights s c2 nW := by
  simp [shuffledPartition, initialWeights, effectiveSeed, hs]

/-- C5 witness: determinism of seed 5 across clock ticks 1 and 2. -/
theorem seeded_runs_deterministic_witness :
    (5 : ℕ) ≠ 0 ∧
    (shuffledPartition 5 1 1 (1/2) (1/4) [0, 1, 2]
        = shuffledPartition 5 2 1 (1/2) (1/4) [(0:ℕ), 1, 2] ∧
     initialWeights 5 1 4 = initialWeights 5 2 4) :=
  ⟨by decide, seeded_runs_deterministic 5 1 2 1 (1/2) (1/4) [0, 1, 2] 4 (by decide)⟩

/-! ## Claim C6 -/

/-- C6 counterexample: with the BinaryCrossEntropy loss configured,
`process` returns the last layer's output unchanged even though its
softmax differs: the cross-entropy-based loss kinds are not both covered,
only `Loss::CrossEntropy` is. -/
theorem process_softmax_counterexample :
    process [] Loss.BinaryCrossEntropy Real.exp [[0]] = [[0]] ∧
    softmax Real.exp (forwardPass [] [[0]]) = [[1]] ∧
    process [] Loss.BinaryCrossEntropy Real.exp [[0]]
      ≠ softmax Real.exp (forwardPass [] [[0]]) := by
  have h1 : process [] Loss.BinaryCrossEntropy Real.exp [[0]] = [[0]] := by
    simp [process, forwardPass]
  have h2 : softmax Real.exp (forwardPass [] [[0]]) = [[1]] := by
    simp [softmax, forwardPass, Real.exp_zero]
  refine ⟨h1, h2, ?_⟩
  rw [h1, h2]
  simp

/-- C6 (amended): `process` composes the layers' pure forward passes in
order and applies softmax to the final output exactly when the configured
loss is `Loss::CrossEntropy`; for every other loss kind, including
`Loss::BinaryCrossEntropy`, it returns the last layer's output
unchanged. -/
theorem process_softmax_dispatch (layers : List (List (List ℝ) → List (List ℝ)))
    (loss : Loss) (e : ℝ → ℝ) (inputs : List (List ℝ)) :
    (loss = Loss.CrossEntropy →
      process layers loss e inputs = softmax e (forwardPass layers inputs)) ∧
    (loss ≠ Loss.CrossEntropy →
      process layers loss e inputs = forwardPass layers inputs) := by
  constructor <;> intro h <;> simp [process, h]

/-- C6 witness: the dispatch evaluated at the CrossEntropy and the L2
loss kinds. -/
theorem process_softmax_dispatch_witness :
    process [] Loss.CrossEntropy Real.exp [[0]]
        = softmax Real.exp (forwardPass [] [[0]]) ∧
    process [] Loss.L2 Real.exp [[0]] = forwardPass [] [[0]] :=
  ⟨(process_softmax_dispatch [] Loss.CrossEntropy Real.exp [[0]]).1 rfl,
   (process_softmax_dispatch [] Loss.L2 Real.exp [[0]]).2 (by simp)⟩

/-! ## Claim C7 -/

/-- C7 (confirmed): `crossEntropyLoss` computes each in-range element of
its loss and gradient from the softmax of `predicted`, not from raw
`predicted` - `loss[i][j] = real[i][j] * -log(softmax(predicted)[i][j])`
and `grad[i][j] = real[i][j] - softmax(predicted)[i][j]`; and for a
one-hot `real` row the loss entry of the hot class tends to 0 as the
corresponding logit grows and dominates its row. -/
theorem crossEntropyLoss_uses_softmax (real predicted : List (List ℝ)) (i j : ℕ)
    (hi : i < real.length) (hj : j < (real.headD []).length) :
    (((crossEntropyLoss Real.exp Real.log real predicted).1.getD i []).getD j 0
      = ((real.getD i []).getD j 0)
        * -(Real.log (((softmax Real.exp predicted).getD i []).getD j 0)) ∧
     ((crossEntropyLoss Real.exp Real.log real predicted).2.getD i []).getD j 0
      = ((real.getD i []).getD j 0)
        - ((softmax Real.exp predicted).getD i []).getD j 0) ∧
    (∀ c : ℝ, Filter.Tendsto
      (fun x : ℝ =>
        (((crossEntropyLoss Real.exp Real.log [[1, 0]] [[x, c]]).1.getD 0 []).getD 0 0))
      Filter.atTop (nhds 0)) := by
  have hget : ∀ {β : Type} (f : ℕ → β) (n i : ℕ) (d : β), i < n →
      ((List.range n).map f).getD i d = f i := by
    intro β f n i d h
    rw [List.getD_eq_getElem _ _ (by simpa using h), List.getElem_map, List.getElem_range]
  constructor
  · constructor
    · simp only [crossEntropyLoss]
      rw [hget _ _ _ _ hi, hget _ _ _ _ hj]
    · simp only [crossEntropyLoss]
      rw [hget _ _ _ _ hi, hget _ _ _ _ hj]
  · intro c
    have heval : ∀ x : ℝ,
        (((crossEntropyLoss Real.exp Real.log [[1, 0]] [[x, c]]).1.getD 0 []).getD 0 0)
          = Real.log (1 + Real.exp (c - x)) := by
      intro x
      have hpos : (0:ℝ) < Real.exp x + Real.exp c :=
        add_pos (Real.exp_pos x) (Real.exp_pos c)
      simp only [crossEntropyLoss, softmax, List.length_cons, List.length_nil,
        List.headD_cons, List.range_succ, List.range_zero, List.map_cons, List.map_nil,
        List.nil_append, List.cons_append, List.getD_cons_zero, List.sum_cons,
        List.sum_nil, add_zero, one_mul]
      rw [← Real.log_inv, inv_div]
      congr 1
      rw [add_div, div_self (Real.exp_ne_zero x), Real.exp_sub]
    rw [show (fun x : ℝ =>
        (((crossEntropyLoss Real.exp Real.log [[1, 0]] [[x, c]]).1.getD 0 []).getD 0 0))
      = fun x : ℝ => Real.log (1 + Real.exp (c - x)) from funext heval]
    have h1 : Filter.Tendsto (fun x : ℝ => c - x) Filter.atTop Filter.atBot := by
      have := Filter.tendsto_atBot_add_const_left Filter.atTop c
        (Filter.tendsto_neg_atTop_atBot (β := ℝ))
      simpa [sub_eq_add_neg] using this
    have h2 : Filter.Tendsto (fun x : ℝ => Real.exp (c - x)) Filter.atTop (nhds 0) :=
      Real.tendsto_exp_atBot.comp h1
    have h3 : Filter.Tendsto (fun x : ℝ => 1 + Real.exp (c - x)) Filter.atTop (nhds 1) := by
      have := Filter.Tendsto.const_add (1 : ℝ) h2
      simpa using this
    have h4 : Filter.Tendsto Real.log (nhds 1) (nhds 0) := by
      have := (Real.continuousAt_log (x := 1) one_ne_zero).tendsto
      simpa [Real.log_one] using this
    exact h4.comp h3

/-- C7 witness: the softmax-based formulas at entry (0,0) of a concrete
pair of matrices, and the one-hot limit. -/
theorem crossEntropyLoss_uses_softmax_witness :
    ((0 : ℕ) < [[(1:ℝ), 0]].length ∧ (0 : ℕ) < ([[(1:ℝ), 0]].headD []).length) ∧
    ((((crossEntropyLoss Real.exp Real.log [[(1:ℝ), 0]] [[0, 0]]).1.getD 0 []).getD 0 0
      = (([[(1:ℝ), 0]].getD 0 []).getD 0 0)
        * -(Real.log (((softmax Real.exp [[(0:ℝ), 0]]).getD 0 []).getD 0 0)) ∧
     (((crossEntropyLoss Real.exp Real.log [[(1:ℝ), 0]] [[0, 0]]).2.getD 0 []).getD 0 0
      = (([[(1:ℝ), 0]].getD 0 []).getD 0 0)
        - ((softmax Real.exp [[(0:ℝ), 0]]).getD 0 []).getD 0 0)) ∧
    (∀ c : ℝ, Filter.Tendsto
      (fun x : ℝ =>
        (((crossEntropyLoss Real.exp Real.log [[1, 0]] [[x, c]]).1.getD 0 []).getD 0 0))
      Filter.atTop (nhds 0))) :=
  ⟨⟨by norm_num, by norm_num⟩,
    crossEntropyLoss_uses_softmax [[(1:ℝ), 0]] [[0, 0]] 0 0 (by norm_num) (by norm_num)⟩

/-! ## Claim C8 -/

/-- C8 (confirmed): whenever an in-range element of `predicted` is
exactly 0 or exactly 1, `binaryCrossEntropyLoss` produces a non-finite
value (NaN or an infinity) at that position - the gradient divides by
`predicted*(1-predicted)` with no epsilon guard, so the gradient entry is
always non-finite there; for elements strictly inside (0,1) both the loss
and the gradient entries are finite. -/
theorem binaryCrossEntropy_boundary (lg : ℚ → ℚ) (real predicted : List (List ℚ))
    (i j : ℕ) (hi : i < real.length) (hj : j < (real.headD []).length) :
    (((predicted.getD i []).getD j 0 = 0 ∨ (predicted.getD i []).getD j 0 = 1) →
      (((binaryCrossEntropyLoss lg real predicted).2.getD i []).getD j .nan).isFin
        = false) ∧
    (0 < (predicted.getD i []).getD j 0 → (predicted.getD i []).getD j 0 < 1 →
      (((binaryCrossEntropyLoss lg real predicted).1.getD i []).getD j .nan).isFin
          = true ∧
      (((binaryCrossEntropyLoss lg real predicted).2.getD i []).getD j .nan).isFin
          = true) := by
  have hget : ∀ {β : Type} (f : ℕ → β) (n i : ℕ) (d : β), i < n →
      ((List.range n).map f).getD i d = f i := by
    intro β f n i d h
    rw [List.getD_eq_getElem _ _ (by simpa using h), List.getElem_map, List.getElem_range]
  set r := (real.getD i []).getD j 0 with hr
  set p := (predicted.getD i []).getD j 0 with hp
  have h1 : ((binaryCrossEntropyLoss lg real predicted).1.getD i []).getD j .nan
      = (bceElem lg r p).1 := by
    simp only [binaryCrossEntropyLoss]
    rw [hget _ _ _ _ hi, hget _ _ _ _ hj]
  have h2 : ((binaryCrossEntropyLoss lg real predicted).2.getD i []).getD j .nan
      = (bceElem lg r p).2 := by
    simp only [binaryCrossEntropyLoss]
    rw [hget _ _ _ _ hi, hget _ _ _ _ hj]
  rw [h1, h2]
  have hdiv0 : ∀ a : ℚ, (dDiv (.fin a) (.fin 0)).isFin = false := by
    intro a
    simp only [dDiv, if_pos rfl]
    by_cases h0 : a = 0
    · simp [h0, DVal.isFin]
    · by_cases hlt : 0 < a <;> simp [h0, hlt, DVal.isFin]
  constructor
  · intro hb
    rcases hb with hb | hb <;> rw [bceElem, hb]
    · rw [show ((0:ℚ) * (1 - 0)) = 0 by norm_num]
      exact hdiv0 _
    · rw [show ((1:ℚ) * (1 - 1)) = 0 by norm_num]
      exact hdiv0 _
  · intro hp0 hp1
    have hne : p * (1 - p) ≠ 0 := by
      have : 0 < p * (1 - p) := mul_pos hp0 (by linarith)
      exact ne_of_gt this
    constructor
    · simp only [bceElem, dLog, dMul, dAdd, dNeg]
      rw [if_neg (ne_of_gt hp0), if_neg (not_lt.mpr (le_of_lt hp0)),
        if_neg (by intro h; linarith : ¬ (1 - p = 0)),
        if_neg (by intro h; linarith : ¬ (1 - p < 0))]
      simp [DVal.isFin]
    · simp only [bceElem, dDiv]
      rw [if_neg hne]
      simp [DVal.isFin]

/-- C8 witness: the boundary statement instantiated at `real = [[1]]` and
`predicted = [[0]]`. -/
theorem binaryCrossEntropy_boundary_witness :
    ((0:ℕ) < [[(1:ℚ)]].length ∧ (0:ℕ) < ([[(1:ℚ)]].headD []).length) ∧
    (((([[(0:ℚ)]].getD 0 []).getD 0 0 = 0 ∨ ([[(0:ℚ)]].getD 0 []).getD 0 0 = 1) →
      (((binaryCrossEntropyLoss (fun _ => 0) [[1]] [[0]]).2.getD 0 []).getD 0 .nan).isFin
        = false) ∧
    (0 < ([[(0:ℚ)]].getD 0 []).getD 0 0 → ([[(0:ℚ)]].getD 0 []).getD 0 0 < 1 →
      (((binaryCrossEntropyLoss (fun _ => 0) [[1]] [[0]]).1.getD 0 []).getD 0 .nan).isFin
          = true ∧
      (((binaryCrossEntropyLoss (fun _ => 0) [[1]] [[0]]).2.getD 0 []).getD 0 .nan).isFin
          = true)) :=
  ⟨⟨by simp, by simp⟩,
    binaryCrossEntropy_boundary (fun _ => 0) [[1]] [[0]] 0 0 (by simp) (by simp)⟩

end Burnet
